import Mathlib

/-!
Verification of the pocket-agent scheduling core.

Shallow embedding of `src/cli/scheduler-cli.ts` (schedule classification,
cron validation, next-run calculation, the `add` command acting on the
`cron_jobs` store) and of `src/tools/session-context.ts` (session-context
propagation over an interleaving model of `AsyncLocalStorage`).

Modelling conventions:
- JS timestamps are `Int` milliseconds since the epoch; the process-local
  timezone is modelled as a fixed zero offset (no DST), so `Date` component
  setters (`setHours`, `setMinutes`, `setDate`) become exact modular
  arithmetic on the millisecond value.
- JS `parseInt(s, 10)` is modelled exactly (sign, leading-digit prefix,
  `NaN` as `none`), with JS numbers treated as exact integers.
- The V8 `new Date(string)` fallback parser (only reached for strings that
  match none of the hand-written regexes) is passed in as an oracle
  `String → Option Int`; `noDateParse` is the oracle for strings V8 cannot
  parse. All concrete inputs used below never reach that fallback, so their
  results are oracle-independent.
- Case-insensitive regex matching (`/i`) is ASCII case folding, modelled by
  `lowerNat`.
-/

/-! ### Character helpers (ASCII, mirroring the JS regexes) -/

def charNat (c : Char) : Nat := c.toNat

/-- ASCII case folding used by the `/i` regex flag. -/
def lowerNat (c : Char) : Nat :=
  if 65 ≤ charNat c ∧ charNat c ≤ 90 then charNat c + 32 else charNat c

/-- Case-insensitive character comparison (regex `/i`). -/
def charEqCI (a b : Char) : Bool := lowerNat a = lowerNat b

/-- ASCII decimal digit, the regex class `\d`. -/
def isDigitChar (c : Char) : Bool := 48 ≤ charNat c ∧ charNat c ≤ 57

/-- The regex class `\s` (ASCII part; the inputs at issue are ASCII). -/
def isWsChar (c : Char) : Bool :=
  charNat c = 32 ∨ charNat c = 9 ∨ charNat c = 10 ∨
  charNat c = 13 ∨ charNat c = 11 ∨ charNat c = 12

/-- Numeric value of a digit string, most significant first. -/
def digitsVal (ds : List Char) : Nat :=
  ds.foldl (fun a c => a * 10 + (charNat c - 48)) 0

/-- Case-insensitively strip `pat` from the front of `cs`;
returns the remainder on success. -/
def stripPrefixCI : List Char → List Char → Option (List Char)
  | [], cs => some cs
  | _ :: _, [] => none
  | p :: ps, c :: cs => if charEqCI p c then stripPrefixCI ps cs else none

/-- `s.includes(c)` from JS. -/
def hasChar (s : String) (c : Char) : Bool := s.data.any (fun x => x = c)

/-! ### JS `parseInt(s, 10)` -/

/-- Leading decimal-digit run of a character list, as a number;
`none` if there is no leading digit. -/
def leadingNat (cs : List Char) : Option Nat :=
  let ds := cs.takeWhile isDigitChar
  if ds.isEmpty then none else some (digitsVal ds)

/-- JS `parseInt(s, 10)`: skip whitespace, optional sign, longest digit
prefix; `none` models `NaN`. -/
def jsParseIntList (cs0 : List Char) : Option Int :=
  match cs0.dropWhile isWsChar with
  | [] => none
  | c :: rest =>
    if c = '-' then (leadingNat rest).map (fun n => -(n : Int))
    else if c = '+' then (leadingNat rest).map (fun n => (n : Int))
    else (leadingNat (c :: rest)).map (fun n => (n : Int))

def jsParseInt (s : String) : Option Int := jsParseIntList s.data

/-! ### JS `trim` and `split(/\s+/)` -/

def jsTrimList (l : List Char) : List Char :=
  ((l.dropWhile isWsChar).reverse.dropWhile isWsChar).reverse

def jsTrim (s : String) : String := String.mk (jsTrimList s.data)

/-- Maximal non-whitespace runs of a character list. -/
def wsTokensAux : List Char → List Char → List (List Char)
  | [], acc => if acc.isEmpty then [] else [acc.reverse]
  | c :: cs, acc =>
    if isWsChar c then
      if acc.isEmpty then wsTokensAux cs [] else acc.reverse :: wsTokensAux cs []
    else wsTokensAux cs (c :: acc)

/-- JS `s.split(/\s+/)` (for the trimmed strings this code applies it to:
no leading empty field; the empty string yields `[""]`). -/
def splitWs (s : String) : List String :=
  if s.data.isEmpty then [""]
  else (wsTokensAux s.data []).map (fun cs => String.mk cs)

/-! ### `validateCron` (scheduler-cli.ts lines 135-161) -/

def cronBounds : List (Int × Int) := [(0, 59), (0, 23), (1, 31), (1, 12), (0, 7)]

/-- One field check of `validateCron`: `*` passes; any field containing
`/`, `-` or `,` passes with no further check; otherwise `parseInt` must
give a number within the field bounds. -/
def cronFieldOk (b : Int × Int) (part : String) : Bool :=
  if part = "*" then true
  else if hasChar part '/' then true
  else if hasChar part '-' then true
  else if hasChar part ',' then true
  else
    match jsParseInt part with
    | none => false
    | some n => b.1 ≤ n ∧ n ≤ b.2

def validateCronParts (parts : List String) : Bool :=
  parts.length = 5 ∧ (List.zip cronBounds parts).all (fun bp => cronFieldOk bp.1 bp.2)

def validateCron (schedule : String) : Bool := validateCronParts (splitWs schedule)

/-! ### The `every` pattern (scheduler-cli.ts lines 45-54) -/

def everyUnits : List String :=
  ["m", "min", "mins", "minute", "minutes", "h", "hr", "hrs", "hour", "hours", "d", "day", "days"]

/-- Interval selected from the unit captured by the `every` regex. The
unit must equal one of the alternatives (case-insensitively, the `$`
anchor); the interval is chosen by `unit.startsWith('m'/'h')` on the raw
capture, exactly as in the source. -/
def unitIntervalMs (u : List Char) : Option Nat :=
  if everyUnits.any (fun w => stripPrefixCI w.data u = some []) then
    some (if u.head? = some 'm' then 60000
          else if u.head? = some 'h' then 3600000
          else 86400000)
  else none

/-- The regex `^(?:every\s+)?(\d+)\s*(m|min|...|days?)$/i` applied to a
character list, returning the interval in milliseconds. -/
def everyParseList (cs : List Char) : Option Nat :=
  let cs1 :=
    match stripPrefixCI "every".data cs with
    | some r => if r.head?.any isWsChar then r.dropWhile isWsChar else cs
    | none => cs
  let ds := cs1.takeWhile isDigitChar
  if ds.isEmpty then none
  else
    match unitIntervalMs ((cs1.dropWhile isDigitChar).dropWhile isWsChar) with
    | some ms => some (digitsVal ds * ms)
    | none => none

/-- The interval the source assigns to a (lowercase) unit string: first
character `m` → minutes, `h` → hours, otherwise days. -/
def everyUnitMs (u : String) : Nat :=
  if u.data.head? = some 'm' then 60000
  else if u.data.head? = some 'h' then 3600000
  else 86400000

/-! ### `parseDateTime` (scheduler-cli.ts lines 80-132) -/

def relDayWords : List String :=
  ["today", "tomorrow", "monday", "tuesday", "wednesday", "thursday", "friday",
   "saturday", "sunday"]

def weekDayNames : List String :=
  ["sunday", "monday", "tuesday", "wednesday", "thursday", "friday", "saturday"]

def matchDayWord : List String → List Char → Option (String × List Char)
  | [], _ => none
  | w :: ws, cs =>
    match stripPrefixCI w.data cs with
    | some rest => some (w, rest)
    | none => matchDayWord ws cs

/-- Trailing `\s*(am|pm)?$` of the relative-datetime regex. -/
def relTailAmPm (r0 : List Char) : Option (Option String) :=
  let r := r0.dropWhile isWsChar
  if r.isEmpty then some none
  else if stripPrefixCI "am".data r = some [] then some (some "am")
  else if stripPrefixCI "pm".data r = some [] then some (some "pm")
  else none

/-- The regex `^(today|tomorrow|monday|...)\s+(\d{1,2})(?::(\d{2}))?\s*(am|pm)?$/i`.
Returns the day word (canonical lowercase — the source lowercases the
capture before every use), the hour, the minute (0 when absent) and the
am/pm marker. -/
def relativeMatchList (cs : List Char) : Option (String × Nat × Nat × Option String) :=
  match matchDayWord relDayWords cs with
  | none => none
  | some (w, rest) =>
    if rest.head?.any isWsChar then
      let r1 := rest.dropWhile isWsChar
      let hs := r1.takeWhile isDigitChar
      if hs.length = 1 ∨ hs.length = 2 then
        match r1.dropWhile isDigitChar with
        | ':' :: d1 :: d2 :: r3 =>
          if isDigitChar d1 ∧ isDigitChar d2 then
            (relTailAmPm r3).map (fun ap => (w, digitsVal hs, digitsVal [d1, d2], ap))
          else none
        | ':' :: _ => none
        | r2 => (relTailAmPm r2).map (fun ap => (w, digitsVal hs, 0, ap))
      else none
    else none

/-- Day index of a local timestamp (`Date` civil day in the fixed-offset
model). -/
def dayIndex (t : Int) : Int := (t - t % 86400000) / 86400000

/-- JS `getDay()`: day of week, 0 = Sunday (the epoch day was a Thursday). -/
def dayOfWeek (t : Int) : Int := (dayIndex t + 4) % 7

/-- JS `Array.prototype.indexOf` (-1 when absent). -/
def jsIndexOf (l : List String) (x : String) : Int :=
  match l.indexOf? x with
  | some i => (i : Int)
  | none => -1

/-- Hour adjustment from lines 100-103: `pm` adds 12 below 12; `12am` is 0. -/
def jsHourAdjust (h : Nat) (ampm : Option String) : Nat :=
  if ampm = some "pm" ∧ h < 12 then h + 12
  else if ampm = some "am" ∧ h = 12 then 0
  else h

/-- Lines 86-106: resolve a matched relative expression against `now`.
`setDate`/`setHours` become day/millisecond arithmetic in the fixed-offset
model. -/
def relativeResolve (now : Int) (dayStr : String) (h m : Nat) (ampm : Option String) : Int :=
  let baseDay : Int :=
    if dayStr = "tomorrow" then dayIndex now + 1
    else if dayStr ≠ "today" then
      let targetDay := jsIndexOf weekDayNames dayStr
      let currentDay := dayOfWeek now
      let d0 := targetDay - currentDay
      let d := if d0 ≤ 0 then d0 + 7 else d0
      dayIndex now + d
    else dayIndex now
  baseDay * 86400000 + (jsHourAdjust h ampm : Int) * 3600000 + (m : Int) * 60000

def inUnits : List String := ["hour", "hr", "minute", "min", "day", "d"]

/-- The regex `^in\s+(\d+)\s*(hour|hr|minute|min|day|d)s?$/i`, returning the
offset in milliseconds. -/
def inMatchList (cs : List Char) : Option Int :=
  match stripPrefixCI "in".data cs with
  | none => none
  | some r =>
    if r.head?.any isWsChar then
      let r1 := r.dropWhile isWsChar
      let ds := r1.takeWhile isDigitChar
      if ds.isEmpty then none
      else
        let r2 := (r1.dropWhile isDigitChar).dropWhile isWsChar
        match inUnits.find? (fun w =>
            stripPrefixCI w.data r2 = some [] ∨
            stripPrefixCI (w.data ++ ['s']) r2 = some []) with
        | some w =>
          some ((digitsVal ds : Int) *
            (if w = "hour" ∨ w = "hr" then 3600000
             else if w = "minute" ∨ w = "min" then 60000
             else 86400000))
        | none => none
    else none

/-- `parseDateTime` from lines 80-132. `oracle` is the V8 `new Date(string)`
fallback parser (only that branch checks `parsed > now`). -/
def parseDateTime (oracle : String → Option Int) (now : Int) (input : String) : Option Int :=
  match relativeMatchList input.data with
  | some (d, h, m, ap) => some (relativeResolve now d h m ap)
  | none =>
    match inMatchList input.data with
    | some ms => some (now + ms)
    | none =>
      match oracle input with
      | some t => if now < t then some t else none
      | none => none

/-- Oracle for strings the V8 date parser rejects. -/
def noDateParse : String → Option Int := fun _ => none

/-! ### `parseSchedule` (scheduler-cli.ts lines 36-77) -/

/-- Line 60: `/^(today|tomorrow|in\s+\d|monday|...)/i` — prefix only. -/
def startsWithRelative (cs : List Char) : Bool :=
  relDayWords.any (fun w => (stripPrefixCI w.data cs).isSome) ||
  (match stripPrefixCI "in".data cs with
   | some r => r.head?.any isWsChar && (r.dropWhile isWsChar).head?.any isDigitChar
   | none => false)

structure ParsedSchedule where
  type : String
  schedule : Option String := none
  runAt : Option Int := none
  intervalMs : Option Nat := none
deriving DecidableEq, Repr

def parseSchedule (oracle : String → Option Int) (now : Int) (input : String) :
    Option ParsedSchedule :=
  let trimmed := jsTrim input
  match everyParseList trimmed.data with
  | some ms => some { type := "every", intervalMs := some ms }
  | none =>
    let atTime := parseDateTime oracle now trimmed
    if atTime.isSome ∧ startsWithRelative trimmed.data then
      some { type := "at", runAt := atTime }
    else if (splitWs trimmed).length = 5 ∧ validateCron trimmed then
      some { type := "cron", schedule := some trimmed }
    else
      match atTime with
      | some t => some { type := "at", runAt := some t }
      | none => none

/-! ### `calculateNextRun` (scheduler-cli.ts lines 164-195) -/

/-- Cron branch, lines 176-192: truncate seconds, set the minute and hour
fields when not `*` (a `parseInt` failure models `setMinutes(NaN)`, which
makes the `Date` invalid so `toISOString()` throws — modelled as `none`),
then add one day if not strictly after `now`. Only `parts[0]` and
`parts[1]` are ever read. -/
def cronNextFromParts (now : Int) (parts : List String) : Option Int :=
  let minS := parts.getD 0 ""
  let hourS := parts.getD 1 ""
  let a := now - now % 60000
  let ob := if minS = "*" then some a
            else (jsParseInt minS).map (fun m => a - a % 3600000 + m * 60000 + a % 60000)
  match ob with
  | none => none
  | some b =>
    let oc := if hourS = "*" then some b
              else (jsParseInt hourS).map (fun h =>
                b - b % 86400000 + h * 3600000 + b % 3600000)
    match oc with
    | none => none
    | some c => some (if c ≤ now then c + 86400000 else c)

/-- `calculateNextRun(type, schedule, runAt, intervalMs)`. The outer
`Option` models a thrown exception (`toISOString` on an invalid `Date`);
the inner `Option` is the function's `null`. JS truthiness: an interval of
`0` and an empty schedule string are falsy and skip their branch. -/
def calculateNextRun (now : Int) (ty : String) (schedule : Option String)
    (runAt : Option Int) (intervalMs : Option Nat) : Option (Option Int) :=
  if ty = "at" ∧ runAt.isSome then
    some (if now < runAt.getD 0 then some (runAt.getD 0) else none)
  else if ty = "every" ∧ intervalMs.getD 0 ≠ 0 then
    some (some (now + (intervalMs.getD 0 : Int)))
  else if ty = "cron" ∧ schedule.getD "" ≠ "" then
    match cronNextFromParts now (splitWs (schedule.getD "")) with
    | none => none
    | some c => some (some c)
  else some none

/-- JS `x || null` on an optional string (empty string is falsy). -/
def jsOrNullStr (s : Option String) : Option String :=
  match s with
  | some "" => none
  | x => x

/-- JS `x || null` on an optional number (0 is falsy). -/
def jsOrNullNat (n : Option Nat) : Option Nat :=
  match n with
  | some 0 => none
  | x => x

/-- The call on lines 349-354: `calculateNextRun(parsed.type,
parsed.schedule || null, parsed.runAt || null, parsed.intervalMs || null)`. -/
def nextRunOf (now : Int) (p : ParsedSchedule) : Option (Option Int) :=
  calculateNextRun now p.type (jsOrNullStr p.schedule) p.runAt (jsOrNullNat p.intervalMs)

/-! ### The `add` command (scheduler-cli.ts lines 312-398) -/

structure Job where
  id : Nat
  name : String
  scheduleType : String
  schedule : Option String
  runAt : Option Int
  intervalMs : Option Nat
  prompt : String
  channel : String
  enabled : Bool
  deleteAfterRun : Bool
  contextMessages : Option Int
  nextRunAt : Option Int
deriving DecidableEq, Repr

structure AddOptions where
  deleteAfterRun : Bool
  contextMessages : Option Int
  channel : String
deriving DecidableEq, Repr

def initOptions : AddOptions := ⟨false, some 0, "desktop"⟩

/-- `Math.min(10, Math.max(0, parseInt(v, 10)))`; `none` models `NaN`
(stored as SQL `NULL`). -/
def clampContext (v : String) : Option Int :=
  match jsParseInt v with
  | some n => some (min 10 (max 0 n))
  | none => none

/-- The option loop, lines 334-342: `--delete-after` sets the flag;
`--context`/`--channel` consume the next argument only when it is truthy
(present and non-empty), exactly the JS `args[i] === '--x' && args[i + 1]`
test; anything else is skipped. -/
def scanOptions : List String → AddOptions → AddOptions
  | [], acc => acc
  | [a], acc =>
    if a = "--delete-after" then { acc with deleteAfterRun := true } else acc
  | a :: v :: rest, acc =>
    if a = "--delete-after" then
      scanOptions (v :: rest) { acc with deleteAfterRun := true }
    else if a = "--context" ∧ v ≠ "" then
      scanOptions rest { acc with contextMessages := clampContext v }
    else if a = "--channel" ∧ v ≠ "" then
      scanOptions rest { acc with channel := v }
    else scanOptions (v :: rest) acc

inductive AddOutcome where
  | parseError : AddOutcome
  | thrown : AddOutcome
  | created : AddOutcome
  | updated : AddOutcome
deriving DecidableEq, Repr

/-- `AUTOINCREMENT` id for an insert. -/
def freshId (store : List Job) : Nat :=
  store.foldr (fun j acc => max j.id acc) 0 + 1

/-- The new column values written by both the `UPDATE` and the `INSERT`
(lines 360-397). -/
def newJobFields (p : ParsedSchedule) (prompt : String) (o : AddOptions)
    (dar : Bool) (nra : Option Int) (j : Job) : Job :=
  { j with
    scheduleType := p.type
    schedule := jsOrNullStr p.schedule
    runAt := p.runAt
    intervalMs := jsOrNullNat p.intervalMs
    prompt := prompt
    channel := o.channel
    enabled := true
    deleteAfterRun := dar
    contextMessages := o.contextMessages
    nextRunAt := nra }

/-- The `add` command against the `cron_jobs` store: classify, parse
options, force `deleteAfterRun` for `at` jobs, compute `next_run_at`, then
`UPDATE` in place by name or `INSERT` a fresh row. `parseError` models the
early exit on classification failure; `thrown` models the
`calculateNextRun` exception path (both leave the store untouched). -/
def addJob (oracle : String → Option Int) (now : Int) (store : List Job)
    (name scheduleStr prompt : String) (opts : List String) : AddOutcome × List Job :=
  match parseSchedule oracle now scheduleStr with
  | none => (.parseError, store)
  | some p =>
    let o := scanOptions opts initOptions
    let dar := if p.type = "at" then true else o.deleteAfterRun
    match nextRunOf now p with
    | none => (.thrown, store)
    | some nra =>
      if store.any (fun j => j.name = name) then
        (.updated, store.map (fun j =>
          if j.name = name then newJobFields p prompt o dar nra j else j))
      else
        (.created, store ++ [newJobFields p prompt o dar nra
          { id := freshId store, name := name, scheduleType := "", schedule := none,
            runAt := none, intervalMs := none, prompt := "", channel := "",
            enabled := true, deleteAfterRun := false, contextMessages := none,
            nextRunAt := none }])

/-! ### Civil calendar (to state cron field satisfaction) -/

/-- Civil date (year, month, day) of a day index, days since 1970-01-01
(Gregorian, the standard era-based conversion). -/
def civilFromDays (z0 : Int) : Int × Int × Int :=
  let z := z0 + 719468
  let era := z / 146097
  let doe := z - era * 146097
  let yoe := (doe - doe / 1460 + doe / 36524 - doe / 146096) / 365
  let y := yoe + era * 400
  let doy := doe - (365 * yoe + yoe / 4 - yoe / 100)
  let mp := (5 * doy + 2) / 153
  let d := doy - (153 * mp + 2) / 5 + 1
  let m := mp + (if mp < 10 then 3 else -9)
  (y + (if m ≤ 2 then 1 else 0), m, d)

def localMonth (t : Int) : Int := (civilFromDays (dayIndex t)).2.1

def localDayOfMonth (t : Int) : Int := (civilFromDays (dayIndex t)).2.2

def localMinute (t : Int) : Int := (t % 3600000) / 60000

def localHour (t : Int) : Int := (t % 86400000) / 3600000

/-! ### Session context (src/tools/session-context.ts over an
`AsyncLocalStorage` interleaving model)

`AsyncLocalStorage.run(v, fn)` makes `getStore()` return `v` in `fn` and in
every asynchronous continuation started inside `fn`, per the node
`async_hooks` contract; a continuation belonging to no `run` sees
`undefined`. The model: a task is the chain of continuations of one
top-level call — its captured store (`Option String`, `none` = no
enclosing `run`) plus the list of pending atomic segments. A scheduler
interleaves the segments of all tasks in an arbitrary order. -/

/-- One await-separated segment of a task: read the current session id, or
mutate the module-level fallback (`setCurrentSessionId`). -/
inductive SegAct where
  | observe : SegAct
  | setFallback : String → SegAct
deriving DecidableEq, Repr

structure TaskState where
  store : Option String
  body : List SegAct
deriving DecidableEq, Repr

/-- `getCurrentSessionId()`: the `AsyncLocalStorage` value if present, else
the module-level fallback (`getStore() ?? fallbackSessionId`). -/
def getCurrentSessionId (store : Option String) (fallback : String) : String :=
  store.getD fallback

/-- `runWithSessionId(sessionId, fn)`: run `fn`'s continuations with
`sessionId` as their captured store (`asyncLocalStorage.run`). -/
def runWithSessionId (sessionId : String) (body : List SegAct) : TaskState :=
  ⟨some sessionId, body⟩

/-- Execute the segments of `tasks` in the interleaving order given by
`sched` (indices into `tasks`; exhausted or out-of-range indices are
skipped), starting from fallback `fb`. Returns the observation log:
which task observed which session id, in execution order. -/
def runSched (tasks : List TaskState) (fb : String) : List Nat → List (Nat × String)
  | [] => []
  | i :: rest =>
    match tasks[i]? with
    | none => runSched tasks fb rest
    | some t =>
      match t.body with
      | [] => runSched tasks fb rest
      | act :: more =>
        let tasks1 := tasks.set i ⟨t.store, more⟩
        match act with
        | .observe => (i, getCurrentSessionId t.store fb) :: runSched tasks1 fb rest
        | .setFallback s => runSched tasks1 s rest

/-- Synchronous call tree for the nested-`runWith` discipline: an action is
an observation, a fallback mutation, or a nested `runWithSessionId` call
with its own body. -/
inductive Act where
  | observe : Act
  | setFallback : String → Act
  | runWith : String → List Act → Act
deriving Repr

/-- Synchronous execution: returns the final fallback and the observation
log. A nested `runWith` executes its body under its own store and the
continuation resumes under the enclosing store (`AsyncLocalStorage.run`
restores on completion). -/
def execActs : Option String → String → List Act → String × List String
  | _, fb, [] => (fb, [])
  | store, fb, .observe :: rest =>
    let r := execActs store fb rest
    (r.1, getCurrentSessionId store fb :: r.2)
  | store, _, .setFallback s :: rest => execActs store s rest
  | store, fb, .runWith id body :: rest =>
    let inner := execActs (some id) fb body
    let outer := execActs store inner.1 rest
    (outer.1, inner.2 ++ outer.2)

/-! ### The spec's cron field grammar (for comparison with `validateCron`)

These definitions follow the spec's words — `* | N | N-M | N/S |
comma-list of the above`, "with its numbers inside the field-specific
bounds" — not the source, and exist only to be compared against the
source-derived `validateCron`. -/

/-- Split a character list at every occurrence of `c` (JS `split(c)`:
always at least one segment). -/
def splitOnChar (c : Char) : List Char → List (List Char)
  | [] => [[]]
  | x :: xs =>
    let r := splitOnChar c xs
    if x = c then [] :: r
    else
      match r with
      | [] => [[x]]
      | seg :: rest => (x :: seg) :: rest

/-- A bare number within the field bounds. -/
def boundedNum (lo hi : Int) (cs : List Char) : Bool :=
  ¬ cs.isEmpty ∧ cs.all isDigitChar ∧ lo ≤ (digitsVal cs : Int) ∧ (digitsVal cs : Int) ≤ hi

/-- One comma-list item of the spec grammar: `*`, `N`, `N-M` or `N/S`. -/
def specCronItemOk (lo hi : Int) (cs : List Char) : Bool :=
  (cs = ['*'] : Bool) || boundedNum lo hi cs ||
  (match splitOnChar '-' cs with
   | [x, y] => boundedNum lo hi x && boundedNum lo hi y
   | _ => false) ||
  (match splitOnChar '/' cs with
   | [x, y] => boundedNum lo hi x && !y.isEmpty && y.all isDigitChar
   | _ => false)

/-- A whole field per the spec grammar: a non-empty comma list of items. -/
def specCronFieldOk (lo hi : Int) (p : String) : Bool :=
  (splitOnChar ',' p.data).all (specCronItemOk lo hi)

/-- The spec's acceptance condition for a 5-field cron expression. -/
def specCronPartsOk (parts : List String) : Bool :=
  parts.length = 5 ∧ (List.zip cronBounds parts).all (fun bp => specCronFieldOk bp.1.1 bp.1.2 bp.2)

/-! ## Claims -/

/-- C2: under any interleaving of concurrently running tasks, every
`getCurrentSessionId` call made inside a task started by
`runWithSessionId sid` returns `sid` — never another task's id and never
the (possibly concurrently mutated) fallback; and a nested
`runWithSessionId` call shadows the enclosing id for exactly its own
duration, the enclosing id being restored when it completes (and the
enclosing context after the outer call completes). -/
theorem sessionId_isolation :
    (∀ (tasks : List TaskState) (fb : String) (sched : List Nat) (i : Nat)
        (t : TaskState) (sid v : String),
        tasks[i]? = some t → t.store = some sid →
        (i, v) ∈ runSched tasks fb sched → v = sid) ∧
    (∀ (store : Option String) (fb a b : String),
        (execActs store fb
          [Act.runWith a [Act.observe, Act.runWith b [Act.observe], Act.observe],
           Act.observe]).2 = [a, b, a, getCurrentSessionId store fb]) := by
  constructor
  · intro tasks fb sched
    induction sched generalizing tasks fb with
    | nil => intro i t sid v _ _ h3; simp [runSched] at h3
    | cons j rest ih =>
      intro i t sid v h1 h2 h3
      rw [runSched] at h3
      split at h3
      · exact ih tasks fb i t sid v h1 h2 h3
      · next tj hj =>
        have hset : ∀ (more : List SegAct) (fb2 w : String),
            (i, w) ∈ runSched (tasks.set j ⟨tj.store, more⟩) fb2 rest → w = sid := by
          intro more fb2 w hw
          by_cases hij : i = j
          · subst hij
            have hlen : i < tasks.length := (List.getElem?_eq_some.mp hj).1
            have h1' : (tasks.set i ⟨tj.store, more⟩)[i]? = some ⟨tj.store, more⟩ :=
              List.getElem?_set_self hlen
            have ht : t = tj := by rw [h1] at hj; exact Option.some.inj hj
            refine ih _ fb2 i ⟨tj.store, more⟩ sid w h1' ?_ hw
            simpa [ht] using h2
          · have h1' : (tasks.set j ⟨tj.store, more⟩)[i]? = some t := by
              rw [List.getElem?_set_ne (fun h => hij h.symm)]
              exact h1
            exact ih _ fb2 i t sid w h1' h2 hw
        split at h3
        · exact ih tasks fb i t sid v h1 h2 h3
        · next act more hb =>
          split at h3
          · rcases List.mem_cons.mp h3 with heq | hmem
            · have hi : i = j := congrArg Prod.fst heq
              subst hi
              have ht : t = tj := by rw [h1] at hj; exact Option.some.inj hj
              have hv : v = getCurrentSessionId tj.store fb := congrArg Prod.snd heq
              rw [hv, ← ht, getCurrentSessionId, h2]
              rfl
            · exact hset more fb v hmem
          · next s => exact hset more s v h3
  · intro store fb a b
    simp [execActs, getCurrentSessionId]

theorem sessionId_isolation_witness :
    ([runWithSessionId "session-A" [.observe, .observe],
      runWithSessionId "session-B" [.observe]][0]? =
        some (runWithSessionId "session-A" [.observe, .observe])) ∧
    (runWithSessionId "session-A" [.observe, .observe]).store = some "session-A" ∧
    ((0, "session-A") ∈
      runSched [runWithSessionId "session-A" [.observe, .observe],
                runWithSessionId "session-B" [.observe]] "default" [0, 1, 0, 1]) ∧
    "session-A" = "session-A" :=
  ⟨by decide, by decide, by decide,
    sessionId_isolation.1
      [runWithSessionId "session-A" [.observe, .observe],
       runWithSessionId "session-B" [.observe]] "default" [0, 1, 0, 1] 0
      (runWithSessionId "session-A" [.observe, .observe]) "session-A" "session-A"
      (by decide) (by decide) (by decide)⟩

/-- C6: a create-job request whose schedule fails classification returns
the parse-error outcome and leaves the store (in particular its set of
enabled jobs) exactly as it was. -/
theorem addJob_classification_failure_unchanged :
    ∀ (oracle : String → Option Int) (now : Int) (store : List Job)
      (name s prompt : String) (opts : List String),
      parseSchedule oracle now s = none →
      addJob oracle now store name s prompt opts = (.parseError, store) ∧
      (addJob oracle now store name s prompt opts).2.filter (fun j => j.enabled) =
        store.filter (fun j => j.enabled) := by
  intro oracle now store name s prompt opts h
  have he : addJob oracle now store name s prompt opts = (.parseError, store) := by
    rw [addJob, h]
  exact ⟨he, by rw [he]⟩

theorem addJob_classification_failure_unchanged_witness :
    parseSchedule noDateParse 0 "not-a-cron" = none ∧
    (addJob noDateParse 0 [] "n" "not-a-cron" "p" [] = (.parseError, []) ∧
      (addJob noDateParse 0 [] "n" "not-a-cron" "p" [] : AddOutcome × List Job).2.filter
        (fun j => j.enabled) = ([] : List Job).filter (fun j => j.enabled)) :=
  ⟨by decide,
    addJob_classification_failure_unchanged noDateParse 0 [] "n" "not-a-cron" "p" []
      (by decide)⟩

/-- C1 counterexample: `"0 9 1 1 *"` is a valid cron descriptor (and is
classified as `cron`), yet at `now = 1700000000000` (2023-11-14 22:13:20)
the computed next run is 2023-11-15 09:00 — its month is 11 and its
day-of-month 15, so the result does not satisfy the month and day-of-month
fields as the claim requires. -/
theorem cronNextRun_ignores_month_counterexample :
    parseSchedule noDateParse 1700000000000 "0 9 1 1 *" =
      some ⟨"cron", some "0 9 1 1 *", none, none⟩ ∧
    nextRunOf 1700000000000 ⟨"cron", some "0 9 1 1 *", none, none⟩ =
      some (some 1700038800000) ∧
    localMonth 1700038800000 = 11 ∧ localDayOfMonth 1700038800000 = 15 := by
  decide

/-- C3 counterexample: at `now = 1700000000000` (22:13 local time) the
expression `"today 1am"` resolves to 1699923600000 (01:00 the same day,
already past), yet classification succeeds with an `at` descriptor and the
`add` command persists a job (with a null `next_run_at`) instead of
failing. -/
theorem pastToday_classifies_counterexample :
    parseSchedule noDateParse 1700000000000 "today 1am" =
      some ⟨"at", none, some 1699923600000, none⟩ ∧
    (1699923600000 : Int) ≤ 1700000000000 ∧
    (addJob noDateParse 1700000000000 [] "job1" "today 1am" "p" []).1 = .created ∧
    ((addJob noDateParse 1700000000000 [] "job1" "today 1am" "p" []).2.map
      (fun j => (j.name, j.nextRunAt))) = [("job1", none)] := by
  decide

/-- C4 counterexample: `"99-100 * * * *"` is accepted and classified as
`cron`, although its minute field `99-100` violates the claimed grammar
bound (99 > 59 inside a range form). -/
theorem validateCron_range_counterexample :
    parseSchedule noDateParse 0 "99-100 * * * *" =
      some ⟨"cron", some "99-100 * * * *", none, none⟩ ∧
    validateCron "99-100 * * * *" = true ∧
    specCronFieldOk 0 59 "99-100" = false := by
  decide

/-- C5 counterexample: `"0m"` matches the `every` grammar with `n = 0` and
is classified with interval `0`, but `calculateNextRun` treats the zero
interval as falsy and returns null instead of `now + 0`. -/
theorem everyZero_nextRun_counterexample :
    parseSchedule noDateParse 0 "0m" = some ⟨"every", none, none, some 0⟩ ∧
    nextRunOf 0 ⟨"every", none, none, some 0⟩ = some none ∧
    some none ≠ some (some ((0 : Int) + 0 * 60000)) := by
  decide

/-- C9 counterexample: with options `--context abc` the creation still
succeeds, but `parseInt("abc")` is `NaN`, the clamp propagates it, and the
stored `context_messages` is not an integer in `[0, 10]` (it is SQL
`NULL`). -/
theorem contextMessages_malformed_counterexample :
    (addJob noDateParse 0 [] "j" "5m" "p" ["--context", "abc"]).1 = .created ∧
    ((addJob noDateParse 0 [] "j" "5m" "p" ["--context", "abc"]).2.map
      (fun j => j.contextMessages)) = [none] := by
  decide

/-- C10 counterexample: `"monday 99"` matches the weekday regex (`\d{1,2}`
allows hour 99). At `now = 345600000` (a Monday, 1970-01-05 00:00) it
resolves 11 days ahead — `setHours(99)` overflows 4 extra days past the
`daysToAdd = 7` — landing on a Friday, violating both the claimed 1-to-7
day window and the same-weekday-next-week behaviour. -/
theorem weekday_hour_overflow_counterexample :
    parseDateTime noDateParse 345600000 "monday 99" = some 1306800000 ∧
    dayOfWeek 345600000 = jsIndexOf weekDayNames "monday" ∧
    dayIndex 1306800000 - dayIndex 345600000 = 11 ∧
    dayOfWeek 1306800000 = 5 := by
  decide

/-! ### Helper lemmas -/

theorem dropWhile_all_false {α : Type} (p : α → Bool) :
    ∀ l : List α, (∀ c ∈ l, p c = false) → l.dropWhile p = l
  | [], _ => rfl
  | c :: cs, h => by
    rw [List.dropWhile_cons, h c (List.mem_cons_self c cs)]
    simp

theorem takeWhile_append_all {α : Type} (p : α → Bool) :
    ∀ (l₁ l₂ : List α), (∀ c ∈ l₁, p c = true) →
      (l₁ ++ l₂).takeWhile p = l₁ ++ l₂.takeWhile p
  | [], l₂, _ => rfl
  | c :: cs, l₂, h => by
    have ih := takeWhile_append_all p cs l₂ (fun x hx => h x (List.mem_cons_of_mem c hx))
    simp [List.takeWhile_cons, h c (List.mem_cons_self c cs), ih]

theorem dropWhile_append_all {α : Type} (p : α → Bool) :
    ∀ (l₁ l₂ : List α), (∀ c ∈ l₁, p c = true) →
      (l₁ ++ l₂).dropWhile p = l₂.dropWhile p
  | [], l₂, _ => rfl
  | c :: cs, l₂, h => by
    have ih := dropWhile_append_all p cs l₂ (fun x hx => h x (List.mem_cons_of_mem c hx))
    simp [List.dropWhile_cons, h c (List.mem_cons_self c cs), ih]

theorem digit_not_ws (c : Char) (h : isDigitChar c = true) : isWsChar c = false := by
  simp only [isDigitChar, decide_eq_true_eq] at h
  simp only [isWsChar, decide_eq_false_iff_not]
  omega

theorem trim_eq_self (l : List Char)
    (h1 : l.head?.all (fun c => !isWsChar c) = true)
    (h2 : l.reverse.head?.all (fun c => !isWsChar c) = true) :
    jsTrimList l = l := by
  unfold jsTrimList
  have e1 : l.dropWhile isWsChar = l := by
    cases l with
    | nil => rfl
    | cons c cs =>
      rw [List.dropWhile_cons]
      simp only [List.head?_cons, Option.all_some, Bool.not_eq_true'] at h1
      rw [h1]
      simp
  rw [e1]
  have e2 : l.reverse.dropWhile isWsChar = l.reverse := by
    cases hr : l.reverse with
    | nil => rfl
    | cons c cs =>
      rw [List.dropWhile_cons]
      rw [hr] at h2
      simp only [List.head?_cons, Option.all_some, Bool.not_eq_true'] at h2
      rw [h2]
      simp
  rw [e2, List.reverse_reverse]

theorem charEqCI_lower_digit (a c : Char) (ha : 97 ≤ lowerNat a)
    (hc : isDigitChar c = true) : charEqCI a c = false := by
  simp only [isDigitChar, decide_eq_true_eq] at hc
  have hcl : lowerNat c = charNat c := by
    unfold lowerNat
    rw [if_neg]
    omega
  simp only [charEqCI, hcl]
  apply decide_eq_false
  omega

theorem everyParse_core (ds ucs : List Char) (k : Nat)
    (hne : ds ≠ []) (hd : ∀ c ∈ ds, isDigitChar c = true)
    (hu0 : ucs.takeWhile isDigitChar = [])
    (hu1 : ucs.dropWhile isDigitChar = ucs)
    (hu2 : ucs.dropWhile isWsChar = ucs)
    (hu3 : unitIntervalMs ucs = some k) :
    everyParseList (ds ++ ucs) = some (digitsVal ds * k) := by
  obtain ⟨d, ds', rfl⟩ : ∃ d ds', ds = d :: ds' := by
    cases ds with
    | nil => exact absurd rfl hne
    | cons d ds' => exact ⟨d, ds', rfl⟩
  have hdig : isDigitChar d = true := hd d (List.mem_cons_self _ _)
  have hstrip : stripPrefixCI "every".data ((d :: ds') ++ ucs) = none := by
    show stripPrefixCI ('e' :: "very".data) (d :: (ds' ++ ucs)) = none
    rw [stripPrefixCI]
    rw [charEqCI_lower_digit 'e' d (by decide) hdig]
    simp
  rw [everyParseList]
  rw [hstrip]
  simp only
  rw [takeWhile_append_all isDigitChar _ _ hd, hu0, List.append_nil]
  rw [dropWhile_append_all isDigitChar _ _ hd, hu1, hu2, hu3]
  simp [hne]

theorem everyParse_every_core (ds ucs : List Char) (k : Nat)
    (hne : ds ≠ []) (hd : ∀ c ∈ ds, isDigitChar c = true)
    (hu0 : ucs.takeWhile isDigitChar = [])
    (hu1 : ucs.dropWhile isDigitChar = ucs)
    (hu2 : ucs.dropWhile isWsChar = ucs)
    (hu3 : unitIntervalMs ucs = some k) :
    everyParseList ("every ".data ++ (ds ++ ucs)) = some (digitsVal ds * k) := by
  obtain ⟨d, ds', rfl⟩ : ∃ d ds', ds = d :: ds' := by
    cases ds with
    | nil => exact absurd rfl hne
    | cons d ds' => exact ⟨d, ds', rfl⟩
  have hdig : isDigitChar d = true := hd d (List.mem_cons_self _ _)
  have hstrip : stripPrefixCI "every".data ("every ".data ++ ((d :: ds') ++ ucs)) =
      some (' ' :: ((d :: ds') ++ ucs)) := rfl
  rw [everyParseList, hstrip]
  simp only
  have e1 : (' ' :: ((d :: ds') ++ ucs)).dropWhile isWsChar =
      ((d :: ds') ++ ucs).dropWhile isWsChar := rfl
  have e2 : ((d :: ds') ++ ucs).dropWhile isWsChar = (d :: ds') ++ ucs := by
    rw [List.cons_append, List.dropWhile_cons, digit_not_ws d hdig]
    simp
  have e3 : (' ' :: ((d :: ds') ++ ucs)).head?.any isWsChar = true := rfl
  rw [e3]
  simp only [if_true]
  rw [e1, e2]
  rw [takeWhile_append_all isDigitChar _ _ hd, hu0, List.append_nil]
  rw [dropWhile_append_all isDigitChar _ _ hd, hu1, hu2, hu3]
  simp

theorem parseSchedule_every (oracle : String → Option Int) (now : Int)
    (cs : List Char) (k : Nat)
    (htrim : jsTrimList cs = cs)
    (hev : everyParseList cs = some k) :
    parseSchedule oracle now (String.mk cs) = some ⟨"every", none, none, some k⟩ := by
  have ht : jsTrim (String.mk cs) = String.mk cs := by
    unfold jsTrim
    rw [show (String.mk cs).data = cs from rfl, htrim]
  simp only [parseSchedule, ht]
  rw [hev]

theorem nextRunOf_every (now : Int) (k : Nat) (hk : k ≠ 0) :
    nextRunOf now ⟨"every", none, none, some k⟩ = some (some (now + (k : Int))) := by
  obtain ⟨k2, rfl⟩ : ∃ k2, k = k2 + 1 := ⟨k - 1, by omega⟩
  rfl

/-- C5 (amended): for every expression `<digits><unit>` or
`every <digits><unit>` with `unit` one of the recognised unit words and a
**positive** value `n`, classification yields an `every` descriptor whose
interval is exactly `n * 60000` for `m`-units, `n * 3600000` for
`h`-units and `n * 86400000` for `d`-units, and the next run is exactly
`now + interval`. (For `n = 0` the descriptor still carries interval 0
but `calculateNextRun` returns null — see the counterexample.) -/
theorem every_interval_exact :
    ∀ (oracle : String → Option Int) (now : Int) (ds : List Char) (u : String) (n : Nat),
      ds ≠ [] → (∀ c ∈ ds, isDigitChar c = true) → digitsVal ds = n → 1 ≤ n →
      u ∈ everyUnits →
      parseSchedule oracle now (String.mk (ds ++ u.data)) =
        some ⟨"every", none, none, some (n * everyUnitMs u)⟩ ∧
      parseSchedule oracle now (String.mk ("every ".data ++ (ds ++ u.data))) =
        some ⟨"every", none, none, some (n * everyUnitMs u)⟩ ∧
      nextRunOf now ⟨"every", none, none, some (n * everyUnitMs u)⟩ =
        some (some (now + ((n * everyUnitMs u : Nat) : Int))) ∧
      ((u = "m" ∨ u = "min" ∨ u = "minutes") → everyUnitMs u = 60000) ∧
      ((u = "h" ∨ u = "hr" ∨ u = "hours") → everyUnitMs u = 3600000) ∧
      ((u = "d" ∨ u = "days") → everyUnitMs u = 86400000) := by
  intro oracle now ds u n hne hd hval h1n hu
  obtain ⟨d, ds', rfl⟩ : ∃ d ds', ds = d :: ds' := by
    cases ds with
    | nil => exact absurd rfl hne
    | cons d ds' => exact ⟨d, ds', rfl⟩
  have hdig : isDigitChar d = true := hd d (List.mem_cons_self _ _)
  subst hval
  have hkne : ∀ m : Nat, m ≠ 0 → digitsVal (d :: ds') * m ≠ 0 := by
    intro m hm
    have : digitsVal (d :: ds') ≠ 0 := by omega
    exact Nat.mul_ne_zero this hm
  simp only [everyUnits, List.mem_cons, List.not_mem_nil, or_false] at hu
  rcases hu with rfl | rfl | rfl | rfl | rfl | rfl | rfl | rfl | rfl | rfl | rfl | rfl | rfl <;>
    exact ⟨
      parseSchedule_every oracle now _ _
        (trim_eq_self _ (by simp [digit_not_ws d hdig]) (by rw [List.reverse_append]; rfl))
        (everyParse_core _ _ _ (by simp) hd (by decide) (by decide) (by decide) (by decide)),
      parseSchedule_every oracle now _ _
        (trim_eq_self _ rfl (by rw [List.reverse_append, List.reverse_append]; rfl))
        (everyParse_every_core _ _ _ (by simp) hd (by decide) (by decide) (by decide)
          (by decide)),
      nextRunOf_every now _ (hkne _ (by decide)),
      by decide, by decide, by decide⟩

theorem every_interval_exact_witness :
    (['3', '0'] : List Char) ≠ [] ∧ (∀ c ∈ ['3', '0'], isDigitChar c = true) ∧
    digitsVal ['3', '0'] = 30 ∧ 1 ≤ 30 ∧ "m" ∈ everyUnits ∧
    (parseSchedule noDateParse 0 (String.mk (['3', '0'] ++ "m".data)) =
        some ⟨"every", none, none, some (30 * everyUnitMs "m")⟩ ∧
      parseSchedule noDateParse 0 (String.mk ("every ".data ++ (['3', '0'] ++ "m".data))) =
        some ⟨"every", none, none, some (30 * everyUnitMs "m")⟩ ∧
      nextRunOf 0 ⟨"every", none, none, some (30 * everyUnitMs "m")⟩ =
        some (some (0 + ((30 * everyUnitMs "m" : Nat) : Int))) ∧
      (("m" = "m" ∨ "m" = "min" ∨ "m" = "minutes") → everyUnitMs "m" = 60000) ∧
      (("m" = "h" ∨ "m" = "hr" ∨ "m" = "hours") → everyUnitMs "m" = 3600000) ∧
      (("m" = "d" ∨ "m" = "days") → everyUnitMs "m" = 86400000)) :=
  ⟨by decide, by decide, by decide, by decide, by decide,
    every_interval_exact noDateParse 0 ['3', '0'] "m" 30 (by decide) (by decide) (by decide)
      (by decide) (by decide)⟩

theorem scanOptions_flag_mem :
    ∀ (opts : List String) (acc : AddOptions),
      (scanOptions opts acc).deleteAfterRun = true →
      acc.deleteAfterRun = true ∨ "--delete-after" ∈ opts := by
  intro opts acc
  induction opts, acc using scanOptions.induct with
  | case1 acc => intro h; exact Or.inl h
  | case2 acc => intro _; exact Or.inr (List.mem_cons_self _ _)
  | case3 a acc ha =>
    intro h
    rw [scanOptions, if_neg ha] at h
    exact Or.inl h
  | case4 v rest acc ih => intro _; exact Or.inr (List.mem_cons_self _ _)
  | case5 a v rest acc ha hc ih =>
    intro h
    rw [scanOptions, if_neg ha, if_pos hc] at h
    rcases ih h with h1 | h2
    · exact Or.inl h1
    · exact Or.inr (List.mem_cons_of_mem _ (List.mem_cons_of_mem _ h2))
  | case6 a v rest acc ha hc hch ih =>
    intro h
    rw [scanOptions, if_neg ha, if_neg hc, if_pos hch] at h
    rcases ih h with h1 | h2
    · exact Or.inl h1
    · exact Or.inr (List.mem_cons_of_mem _ (List.mem_cons_of_mem _ h2))
  | case7 a v rest acc ha hc hch ih =>
    intro h
    rw [scanOptions, if_neg ha, if_neg hc, if_neg hch] at h
    rcases ih h with h1 | h2
    · exact Or.inl h1
    · exact Or.inr (List.mem_cons_of_mem _ h2)

theorem addJob_stored_fields
    (oracle : String → Option Int) (now : Int) (store : List Job)
    (name s prompt : String) (opts : List String) (p : ParsedSchedule) (nra : Option Int)
    (hp : parseSchedule oracle now s = some p)
    (hn : nextRunOf now p = some nra) :
    ∀ j ∈ (addJob oracle now store name s prompt opts).2, j.name = name →
      j.scheduleType = p.type ∧ j.schedule = jsOrNullStr p.schedule ∧
      j.runAt = p.runAt ∧ j.intervalMs = jsOrNullNat p.intervalMs ∧
      j.prompt = prompt ∧ j.channel = (scanOptions opts initOptions).channel ∧
      j.enabled = true ∧
      j.deleteAfterRun =
        (if p.type = "at" then true else (scanOptions opts initOptions).deleteAfterRun) ∧
      j.contextMessages = (scanOptions opts initOptions).contextMessages ∧
      j.nextRunAt = nra := by
  intro j hj hname
  rw [addJob, hp] at hj
  simp only [hn] at hj
  by_cases hAny : store.any (fun j => j.name = name)
  · rw [if_pos hAny] at hj
    rcases List.mem_map.mp hj with ⟨j0, hj0, rfl⟩
    by_cases h0 : j0.name = name
    · rw [if_pos h0]
      exact ⟨rfl, rfl, rfl, rfl, rfl, rfl, rfl, rfl, rfl, rfl⟩
    · rw [if_neg h0] at hname ⊢
      exact absurd hname h0
  · rw [if_neg hAny] at hj
    rcases List.mem_append.mp hj with hmem | hnew
    · exact absurd (List.any_eq_true.mpr ⟨j, hmem, by simpa using hname⟩) hAny
    · rcases List.mem_singleton.mp hnew with rfl
      exact ⟨rfl, rfl, rfl, rfl, rfl, rfl, rfl, rfl, rfl, rfl⟩

/-- C7: creating a job under an already-used name (with a classifiable
schedule) takes the update path: the store keeps its size, exactly one job
with that name remains, and that job carries the newly supplied schedule
type/fields, prompt, channel, enabled state, and a `next_run_at`
recomputed from the new schedule (so the previous schedule is no longer
armed). -/
theorem addJob_replaces_by_name :
    ∀ (oracle : String → Option Int) (now : Int) (store : List Job)
      (name s prompt : String) (opts : List String) (p : ParsedSchedule) (nra : Option Int),
      parseSchedule oracle now s = some p →
      nextRunOf now p = some nra →
      store.countP (fun j => j.name = name) = 1 →
      (addJob oracle now store name s prompt opts).1 = .updated ∧
      (addJob oracle now store name s prompt opts).2.length = store.length ∧
      (addJob oracle now store name s prompt opts).2.countP (fun j => j.name = name) = 1 ∧
      ∀ j ∈ (addJob oracle now store name s prompt opts).2, j.name = name →
        j.scheduleType = p.type ∧ j.schedule = jsOrNullStr p.schedule ∧
        j.runAt = p.runAt ∧ j.intervalMs = jsOrNullNat p.intervalMs ∧
        j.prompt = prompt ∧ j.channel = (scanOptions opts initOptions).channel ∧
        j.enabled = true ∧ j.nextRunAt = nra := by
  intro oracle now store name s prompt opts p nra hp hn hcount
  have hAny : store.any (fun j => j.name = name) = true := by
    have hpos : 0 < store.countP (fun j => j.name = name) := by omega
    rcases List.countP_pos_iff.mp hpos with ⟨a, ha, hpa⟩
    exact List.any_eq_true.mpr ⟨a, ha, hpa⟩
  refine ⟨by simp [addJob, hp, hn, hAny], by simp [addJob, hp, hn, hAny], ?_, ?_⟩
  · simp only [addJob, hp, hn, hAny, if_true]
    rw [List.countP_map, ← hcount]
    apply List.countP_congr
    intro j _
    by_cases h0 : j.name = name
    · simp [Function.comp, h0, newJobFields]
    · simp [Function.comp, h0]
  · intro j hj hname
    have hf := addJob_stored_fields oracle now store name s prompt opts p nra hp hn j hj hname
    exact ⟨hf.1, hf.2.1, hf.2.2.1, hf.2.2.2.1, hf.2.2.2.2.1, hf.2.2.2.2.2.1,
      hf.2.2.2.2.2.2.1, hf.2.2.2.2.2.2.2.2.2⟩

theorem addJob_replaces_by_name_witness :
    parseSchedule noDateParse 0 "5m" = some ⟨"every", none, none, some 300000⟩ ∧
    nextRunOf 0 ⟨"every", none, none, some 300000⟩ = some (some 300000) ∧
    ([{ id := 1, name := "n", scheduleType := "cron", schedule := some "0 9 * * *",
        runAt := none, intervalMs := none, prompt := "old", channel := "desktop",
        enabled := true, deleteAfterRun := false, contextMessages := some 0,
        nextRunAt := some 5 }] : List Job).countP (fun j => j.name = "n") = 1 ∧
    ((addJob noDateParse 0
        [{ id := 1, name := "n", scheduleType := "cron", schedule := some "0 9 * * *",
           runAt := none, intervalMs := none, prompt := "old", channel := "desktop",
           enabled := true, deleteAfterRun := false, contextMessages := some 0,
           nextRunAt := some 5 }] "n" "5m" "new" []).1 = .updated ∧
      (addJob noDateParse 0
        [{ id := 1, name := "n", scheduleType := "cron", schedule := some "0 9 * * *",
           runAt := none, intervalMs := none, prompt := "old", channel := "desktop",
           enabled := true, deleteAfterRun := false, contextMessages := some 0,
           nextRunAt := some 5 }] "n" "5m" "new" []).2.length =
        ([{ id := 1, name := "n", scheduleType := "cron", schedule := some "0 9 * * *",
            runAt := none, intervalMs := none, prompt := "old", channel := "desktop",
            enabled := true, deleteAfterRun := false, contextMessages := some 0,
            nextRunAt := some 5 }] : List Job).length ∧
      (addJob noDateParse 0
        [{ id := 1, name := "n", scheduleType := "cron", schedule := some "0 9 * * *",
           runAt := none, intervalMs := none, prompt := "old", channel := "desktop",
           enabled := true, deleteAfterRun := false, contextMessages := some 0,
           nextRunAt := some 5 }] "n" "5m" "new" []).2.countP (fun j => j.name = "n") = 1 ∧
      ∀ j ∈ (addJob noDateParse 0
        [{ id := 1, name := "n", scheduleType := "cron", schedule := some "0 9 * * *",
           runAt := none, intervalMs := none, prompt := "old", channel := "desktop",
           enabled := true, deleteAfterRun := false, contextMessages := some 0,
           nextRunAt := some 5 }] "n" "5m" "new" []).2, j.name = "n" →
        j.scheduleType = ParsedSchedule.type ⟨"every", none, none, some 300000⟩ ∧
        j.schedule = jsOrNullStr (ParsedSchedule.schedule ⟨"every", none, none, some 300000⟩) ∧
        j.runAt = ParsedSchedule.runAt ⟨"every", none, none, some 300000⟩ ∧
        j.intervalMs = jsOrNullNat (ParsedSchedule.intervalMs ⟨"every", none, none, some 300000⟩) ∧
        j.prompt = "new" ∧ j.channel = (scanOptions [] initOptions).channel ∧
        j.enabled = true ∧ j.nextRunAt = some 300000) :=
  ⟨by decide, by decide, by decide,
    addJob_replaces_by_name noDateParse 0
      [{ id := 1, name := "n", scheduleType := "cron", schedule := some "0 9 * * *",
         runAt := none, intervalMs := none, prompt := "old", channel := "desktop",
         enabled := true, deleteAfterRun := false, contextMessages := some 0,
         nextRunAt := some 5 }] "n" "5m" "new" [] ⟨"every", none, none, some 300000⟩
      (some 300000) (by decide) (by decide) (by decide)⟩

/-- C8: every job stored by the `add` command from an `at`-classified
schedule has `deleteAfterRun = true` whatever the options were; for any
other schedule type the stored flag equals the scanned `--delete-after`
option and can only be true when `--delete-after` appears among the
options. -/
theorem addJob_deleteAfterRun_policy :
    ∀ (oracle : String → Option Int) (now : Int) (store : List Job)
      (name s prompt : String) (opts : List String) (p : ParsedSchedule) (nra : Option Int),
      parseSchedule oracle now s = some p →
      nextRunOf now p = some nra →
      ∀ j ∈ (addJob oracle now store name s prompt opts).2, j.name = name →
        (p.type = "at" → j.deleteAfterRun = true) ∧
        (p.type ≠ "at" →
          j.deleteAfterRun = (scanOptions opts initOptions).deleteAfterRun ∧
          (j.deleteAfterRun = true → "--delete-after" ∈ opts)) := by
  intro oracle now store name s prompt opts p nra hp hn j hj hname
  have hf := (addJob_stored_fields oracle now store name s prompt opts p nra hp hn
    j hj hname).2.2.2.2.2.2.2.1
  constructor
  · intro hat
    rw [hf, if_pos hat]
  · intro hnat
    rw [hf, if_neg hnat]
    refine ⟨rfl, fun hflag => ?_⟩
    rcases scanOptions_flag_mem opts initOptions hflag with h1 | h2
    · exact absurd h1 (by decide)
    · exact h2

theorem addJob_deleteAfterRun_policy_witness :
    parseSchedule noDateParse 0 "tomorrow 3pm" = some ⟨"at", none, some 140400000, none⟩ ∧
    nextRunOf 0 ⟨"at", none, some 140400000, none⟩ = some (some 140400000) ∧
    (∀ j ∈ (addJob noDateParse 0 [] "t" "tomorrow 3pm" "p" []).2, j.name = "t" →
      (ParsedSchedule.type ⟨"at", none, some 140400000, none⟩ = "at" →
        j.deleteAfterRun = true) ∧
      (ParsedSchedule.type ⟨"at", none, some 140400000, none⟩ ≠ "at" →
        j.deleteAfterRun = (scanOptions [] initOptions).deleteAfterRun ∧
        (j.deleteAfterRun = true → "--delete-after" ∈ ([] : List String)))) :=
  ⟨by decide, by decide,
    addJob_deleteAfterRun_policy noDateParse 0 [] "t" "tomorrow 3pm" "p" []
      ⟨"at", none, some 140400000, none⟩ (some 140400000) (by decide) (by decide)⟩

/-- C9 (amended): when the `--context` argument parses to a number `n`,
the stored `contextMessages` is exactly `min 10 (max 0 n)` — clamped into
`[0, 10]`, below-range values stored as 0, above-range as 10 — and the
creation succeeds; a `--context` argument `parseInt` cannot parse at all
also does not reject the creation, but stores `NaN`/`NULL` instead of a
clamped value (see the counterexample). -/
theorem contextMessages_clamped :
    ∀ (oracle : String → Option Int) (now : Int) (store : List Job)
      (name s prompt v : String) (n : Int) (p : ParsedSchedule) (nra : Option Int),
      parseSchedule oracle now s = some p →
      nextRunOf now p = some nra →
      jsParseInt v = some n →
      ((addJob oracle now store name s prompt ["--context", v]).1 = .created ∨
        (addJob oracle now store name s prompt ["--context", v]).1 = .updated) ∧
      ∀ j ∈ (addJob oracle now store name s prompt ["--context", v]).2, j.name = name →
        ∃ c : Int, j.contextMessages = some c ∧ 0 ≤ c ∧ c ≤ 10 ∧
          (n < 0 → c = 0) ∧ (10 < n → c = 10) ∧ (0 ≤ n → n ≤ 10 → c = n) := by
  intro oracle now store name s prompt v n p nra hp hn hv
  have hvne : v ≠ "" := by
    intro h
    rw [h] at hv
    exact Option.noConfusion ((show jsParseInt "" = none from rfl).symm.trans hv)
  have hscan : scanOptions ["--context", v] initOptions =
      { deleteAfterRun := false, contextMessages := some (min 10 (max 0 n)),
        channel := "desktop" } := by
    rw [scanOptions, if_neg (by decide), if_pos ⟨rfl, hvne⟩, scanOptions]
    simp [clampContext, hv, initOptions]
  constructor
  · by_cases hAny : store.any (fun j => j.name = name) = true
    · right
      simp [addJob, hp, hn, hAny]
    · left
      simp [addJob, hp, hn, hAny]
  · intro j hj hname
    have hf := (addJob_stored_fields oracle now store name s prompt _ p nra hp hn
      j hj hname).2.2.2.2.2.2.2.2.1
    rw [hf, hscan]
    refine ⟨min 10 (max 0 n), rfl, ?_, ?_, ?_, ?_, ?_⟩
    · exact le_min (by norm_num) (le_max_left 0 n)
    · exact min_le_left _ _
    · intro hneg
      rw [max_eq_left (le_of_lt hneg), min_eq_right (by norm_num)]
    · intro hbig
      rw [max_eq_right (by omega), min_eq_left (by omega)]
    · intro h0 h10
      rw [max_eq_right h0, min_eq_right h10]

theorem contextMessages_clamped_witness :
    parseSchedule noDateParse 0 "5m" = some ⟨"every", none, none, some 300000⟩ ∧
    nextRunOf 0 ⟨"every", none, none, some 300000⟩ = some (some 300000) ∧
    jsParseInt "25" = some 25 ∧
    (((addJob noDateParse 0 [] "j" "5m" "p" ["--context", "25"]).1 = .created ∨
        (addJob noDateParse 0 [] "j" "5m" "p" ["--context", "25"]).1 = .updated) ∧
      ∀ j ∈ (addJob noDateParse 0 [] "j" "5m" "p" ["--context", "25"]).2, j.name = "j" →
        ∃ c : Int, j.contextMessages = some c ∧ 0 ≤ c ∧ c ≤ 10 ∧
          ((25 : Int) < 0 → c = 0) ∧ ((10 : Int) < 25 → c = 10) ∧
          ((0 : Int) ≤ 25 → (25 : Int) ≤ 10 → c = 25)) :=
  ⟨by decide, by decide, by decide,
    contextMessages_clamped noDateParse 0 [] "j" "5m" "p" "25" 25
      ⟨"every", none, none, some 300000⟩ (some 300000) (by decide) (by decide) (by decide)⟩

/-- C1 (amended): for a cron descriptor whose minute and hour fields are
plain numbers, `calculateNextRun` returns exactly "today at hour:minute,
or the same time tomorrow if that is not strictly in the future": the
result is strictly after `now`, at most one day ahead, and has the given
minute and hour — and it is computed from `parts[0]`/`parts[1]` alone,
being identical for any day-of-month, month and weekday fields. -/
theorem cronNextRun_minute_hour_only :
    ∀ (now : Int) (mS hS p3 p4 p5 q3 q4 q5 : String) (m h : Int),
      jsParseInt mS = some m → 0 ≤ m → m ≤ 59 →
      jsParseInt hS = some h → 0 ≤ h → h ≤ 23 →
      cronNextFromParts now [mS, hS, p3, p4, p5] =
        some (if now - now % 86400000 + h * 3600000 + m * 60000 ≤ now
              then now - now % 86400000 + h * 3600000 + m * 60000 + 86400000
              else now - now % 86400000 + h * 3600000 + m * 60000) ∧
      (∀ t : Int, cronNextFromParts now [mS, hS, p3, p4, p5] = some t →
        now < t ∧ t ≤ now + 86400000 ∧ localMinute t = m ∧ localHour t = h) ∧
      cronNextFromParts now [mS, hS, p3, p4, p5] = cronNextFromParts now [mS, hS, q3, q4, q5] := by
  intro now mS hS p3 p4 p5 q3 q4 q5 m h hm hm0 hm59 hh hh0 hh23
  have hmstar : mS ≠ "*" := by
    intro he
    rw [he] at hm
    exact Option.noConfusion ((show jsParseInt "*" = none from rfl).symm.trans hm)
  have hhstar : hS ≠ "*" := by
    intro he
    rw [he] at hh
    exact Option.noConfusion ((show jsParseInt "*" = none from rfl).symm.trans hh)
  have hred : ∀ r3 r4 r5 : String, cronNextFromParts now [mS, hS, r3, r4, r5] =
      some (if (now - now % 60000) - (now - now % 60000) % 3600000 + m * 60000 +
                (now - now % 60000) % 60000 -
                ((now - now % 60000) - (now - now % 60000) % 3600000 + m * 60000 +
                 (now - now % 60000) % 60000) % 86400000 + h * 3600000 +
                ((now - now % 60000) - (now - now % 60000) % 3600000 + m * 60000 +
                 (now - now % 60000) % 60000) % 3600000 ≤ now
            then (now - now % 60000) - (now - now % 60000) % 3600000 + m * 60000 +
                 (now - now % 60000) % 60000 -
                 ((now - now % 60000) - (now - now % 60000) % 3600000 + m * 60000 +
                  (now - now % 60000) % 60000) % 86400000 + h * 3600000 +
                 ((now - now % 60000) - (now - now % 60000) % 3600000 + m * 60000 +
                  (now - now % 60000) % 60000) % 3600000 + 86400000
            else (now - now % 60000) - (now - now % 60000) % 3600000 + m * 60000 +
                 (now - now % 60000) % 60000 -
                 ((now - now % 60000) - (now - now % 60000) % 3600000 + m * 60000 +
                  (now - now % 60000) % 60000) % 86400000 + h * 3600000 +
                 ((now - now % 60000) - (now - now % 60000) % 3600000 + m * 60000 +
                  (now - now % 60000) % 60000) % 3600000) := by
    intro r3 r4 r5
    rw [cronNextFromParts]
    simp only [List.getD_cons_zero, List.getD_cons_succ]
    rw [if_neg hmstar, hm]
    simp only [Option.map_some']
    rw [if_neg hhstar, hh]
    simp only [Option.map_some']
  have harith : (now - now % 60000) - (now - now % 60000) % 3600000 + m * 60000 +
      (now - now % 60000) % 60000 -
      ((now - now % 60000) - (now - now % 60000) % 3600000 + m * 60000 +
       (now - now % 60000) % 60000) % 86400000 + h * 3600000 +
      ((now - now % 60000) - (now - now % 60000) % 3600000 + m * 60000 +
       (now - now % 60000) % 60000) % 3600000 =
      now - now % 86400000 + h * 3600000 + m * 60000 := by
    omega
  refine ⟨?_, ?_, ?_⟩
  · rw [hred p3 p4 p5, harith]
  · intro t ht
    rw [hred p3 p4 p5, harith] at ht
    have ht2 : t = if now - now % 86400000 + h * 3600000 + m * 60000 ≤ now
        then now - now % 86400000 + h * 3600000 + m * 60000 + 86400000
        else now - now % 86400000 + h * 3600000 + m * 60000 :=
      (Option.some.inj ht).symm
    simp only [localMinute, localHour]
    by_cases hle : now - now % 86400000 + h * 3600000 + m * 60000 ≤ now
    · rw [if_pos hle] at ht2
      refine ⟨by omega, by omega, by omega, by omega⟩
    · rw [if_neg hle] at ht2
      refine ⟨by omega, by omega, by omega, by omega⟩
  · rw [hred p3 p4 p5, hred q3 q4 q5]


theorem cronNextRun_minute_hour_only_witness :
    jsParseInt "0" = some 0 ∧ (0 : Int) ≤ 0 ∧ (0 : Int) ≤ 59 ∧
    jsParseInt "9" = some 9 ∧ (0 : Int) ≤ 9 ∧ (9 : Int) ≤ 23 ∧
    (cronNextFromParts 1700000000000 ["0", "9", "1", "1", "*"] =
        some (if (1700000000000 : Int) - 1700000000000 % 86400000 + 9 * 3600000 + 0 * 60000 ≤
                  1700000000000
              then 1700000000000 - (1700000000000 : Int) % 86400000 + 9 * 3600000 + 0 * 60000 +
                  86400000
              else 1700000000000 - (1700000000000 : Int) % 86400000 + 9 * 3600000 + 0 * 60000) ∧
      (∀ t : Int, cronNextFromParts 1700000000000 ["0", "9", "1", "1", "*"] = some t →
        (1700000000000 : Int) < t ∧ t ≤ 1700000000000 + 86400000 ∧
        localMinute t = 0 ∧ localHour t = 9) ∧
      cronNextFromParts 1700000000000 ["0", "9", "1", "1", "*"] =
        cronNextFromParts 1700000000000 ["0", "9", "*", "*", "*"]) :=
  ⟨by decide, by decide, by decide, by decide, by decide, by decide,
    cronNextRun_minute_hour_only 1700000000000 "0" "9" "1" "1" "*" "*" "*" "*" 0 9
      (by decide) (by decide) (by decide) (by decide) (by decide) (by decide)⟩

/-- C10 (amended): a datetime expression matched with a weekday name never
resolves to the current day — the day offset is always at least 1; and
whenever the named time fits within one day (as in every ordinary form
like `monday 9am`), the offset is at most 7 and is exactly 7 when the
named weekday equals today's. (A 2-digit hour ≥ 24 such as `monday 99`
overflows extra days — see the counterexample.) -/
theorem weekday_resolves_ahead :
    ∀ (oracle : String → Option Int) (now : Int) (input : String)
      (d : String) (h m : Nat) (ap : Option String),
      relativeMatchList input.data = some (d, h, m, ap) →
      d ∈ weekDayNames →
      parseDateTime oracle now input = some (relativeResolve now d h m ap) ∧
      1 ≤ dayIndex (relativeResolve now d h m ap) - dayIndex now ∧
      ((jsHourAdjust h ap : Int) * 3600000 + (m : Int) * 60000 < 86400000 →
        dayIndex (relativeResolve now d h m ap) - dayIndex now ≤ 7 ∧
        (dayOfWeek now = jsIndexOf weekDayNames d →
          dayIndex (relativeResolve now d h m ap) - dayIndex now = 7)) := by
  intro oracle now input d h m ap hrel hd
  have hpd : parseDateTime oracle now input = some (relativeResolve now d h m ap) := by
    rw [parseDateTime, hrel]
  have h1 : d ≠ "tomorrow" := by
    rintro rfl
    revert hd
    decide
  have h2 : d ≠ "today" := by
    rintro rfl
    revert hd
    decide
  have h3 : 0 ≤ jsIndexOf weekDayNames d ∧ jsIndexOf weekDayNames d ≤ 6 := by
    fin_cases hd <;> decide
  have hres : relativeResolve now d h m ap =
      (dayIndex now +
        (if jsIndexOf weekDayNames d - dayOfWeek now ≤ 0
         then jsIndexOf weekDayNames d - dayOfWeek now + 7
         else jsIndexOf weekDayNames d - dayOfWeek now)) * 86400000 +
        (jsHourAdjust h ap : Int) * 3600000 + (m : Int) * 60000 := by
    rw [relativeResolve, if_neg h1, if_pos h2]
  refine ⟨hpd, ?_, ?_⟩
  · rw [hres]
    simp only [dayIndex, dayOfWeek] at *
    by_cases hc : jsIndexOf weekDayNames d -
        (((now - now % 86400000) / 86400000 + 4) % 7) ≤ 0
    · rw [if_pos hc]
      omega
    · rw [if_neg hc]
      omega
  · intro hfits
    constructor
    · rw [hres]
      simp only [dayIndex, dayOfWeek] at *
      by_cases hc : jsIndexOf weekDayNames d -
          (((now - now % 86400000) / 86400000 + 4) % 7) ≤ 0
      · rw [if_pos hc]
        omega
      · rw [if_neg hc]
        omega
    · intro heq
      rw [hres, ← heq]
      simp only [dayIndex, dayOfWeek] at *
      rw [if_pos (by omega)]
      omega

/-- C3 (amended): a relative `today`-expression resolving to an instant
not strictly in the future is *not* rejected: classification succeeds with
an `at` descriptor carrying the past instant, and the create call
persists a new job record for it whose `next_run_at` is null. -/
theorem pastToday_persists :
    ∀ (oracle : String → Option Int) (now : Int) (input : String)
      (h m : Nat) (ap : Option String) (store : List Job) (name prompt : String)
      (opts : List String),
      jsTrim input = input →
      relativeMatchList input.data = some ("today", h, m, ap) →
      startsWithRelative input.data = true →
      everyParseList input.data = none →
      relativeResolve now "today" h m ap ≤ now →
      store.any (fun j => j.name = name) = false →
      parseSchedule oracle now input =
        some ⟨"at", none, some (relativeResolve now "today" h m ap), none⟩ ∧
      (addJob oracle now store name input prompt opts).1 = .created ∧
      (addJob oracle now store name input prompt opts).2.length = store.length + 1 ∧
      ∀ j ∈ (addJob oracle now store name input prompt opts).2, j.name = name →
        j.scheduleType = "at" ∧ j.runAt = some (relativeResolve now "today" h m ap) ∧
        j.nextRunAt = none := by
  intro oracle now input h m ap store name prompt opts htrim hrel hsw hev hpast hAny
  have hpd : parseDateTime oracle now input = some (relativeResolve now "today" h m ap) := by
    rw [parseDateTime, hrel]
  have hps : parseSchedule oracle now input =
      some ⟨"at", none, some (relativeResolve now "today" h m ap), none⟩ := by
    simp only [parseSchedule, htrim, hev]
    rw [hpd]
    rw [if_pos ⟨rfl, hsw⟩]
  have hnext : nextRunOf now ⟨"at", none, some (relativeResolve now "today" h m ap), none⟩ =
      some none := by
    have hlt : ¬ (now < relativeResolve now "today" h m ap) := by omega
    simp [nextRunOf, jsOrNullStr, jsOrNullNat, calculateNextRun, hlt]
  have haddeq : addJob oracle now store name input prompt opts =
      (.created, store ++ [newJobFields
        ⟨"at", none, some (relativeResolve now "today" h m ap), none⟩ prompt
        (scanOptions opts initOptions) true none
        { id := freshId store, name := name, scheduleType := "", schedule := none,
          runAt := none, intervalMs := none, prompt := "", channel := "",
          enabled := true, deleteAfterRun := false, contextMessages := none,
          nextRunAt := none }]) := by
    rw [addJob, hps]
    simp only [hnext]
    rw [if_neg (by simp [hAny])]
    simp
  refine ⟨hps, by rw [haddeq], ?_, ?_⟩
  · rw [haddeq]
    simp
  · intro j hj hname
    have hf := addJob_stored_fields oracle now store name input prompt opts
      ⟨"at", none, some (relativeResolve now "today" h m ap), none⟩ none hps hnext j hj hname
    exact ⟨hf.1, hf.2.2.1, hf.2.2.2.2.2.2.2.2.2⟩


theorem weekday_resolves_ahead_witness :
    relativeMatchList "monday 9am".data = some ("monday", 9, 0, some "am") ∧
    "monday" ∈ weekDayNames ∧
    (parseDateTime noDateParse 0 "monday 9am" =
        some (relativeResolve 0 "monday" 9 0 (some "am")) ∧
      1 ≤ dayIndex (relativeResolve 0 "monday" 9 0 (some "am")) - dayIndex 0 ∧
      ((jsHourAdjust 9 (some "am") : Int) * 3600000 + (0 : Int) * 60000 < 86400000 →
        dayIndex (relativeResolve 0 "monday" 9 0 (some "am")) - dayIndex 0 ≤ 7 ∧
        (dayOfWeek 0 = jsIndexOf weekDayNames "monday" →
          dayIndex (relativeResolve 0 "monday" 9 0 (some "am")) - dayIndex 0 = 7))) :=
  ⟨by decide, by decide,
    weekday_resolves_ahead noDateParse 0 "monday 9am" "monday" 9 0 (some "am")
      (by decide) (by decide)⟩

theorem pastToday_persists_witness :
    jsTrim "today 1am" = "today 1am" ∧
    relativeMatchList "today 1am".data = some ("today", 1, 0, some "am") ∧
    startsWithRelative "today 1am".data = true ∧
    everyParseList "today 1am".data = none ∧
    relativeResolve 1700000000000 "today" 1 0 (some "am") ≤ 1700000000000 ∧
    ([] : List Job).any (fun j => j.name = "job2") = false ∧
    (parseSchedule noDateParse 1700000000000 "today 1am" =
        some ⟨"at", none, some (relativeResolve 1700000000000 "today" 1 0 (some "am")), none⟩ ∧
      (addJob noDateParse 1700000000000 [] "job2" "today 1am" "p" []).1 = .created ∧
      (addJob noDateParse 1700000000000 [] "job2" "today 1am" "p" []).2.length =
        ([] : List Job).length + 1 ∧
      ∀ j ∈ (addJob noDateParse 1700000000000 [] "job2" "today 1am" "p" []).2,
        j.name = "job2" →
        j.scheduleType = "at" ∧
        j.runAt = some (relativeResolve 1700000000000 "today" 1 0 (some "am")) ∧
        j.nextRunAt = none) :=
  ⟨by decide, by decide, by decide, by decide, by decide, by decide,
    pastToday_persists noDateParse 1700000000000 "today 1am" 1 0 (some "am") [] "job2" "p" []
      (by decide) (by decide) (by decide) (by decide) (by decide) (by decide)⟩

theorem splitOnChar_no_occurrence (c : Char) :
    ∀ l : List Char, (∀ x ∈ l, x ≠ c) → splitOnChar c l = [l]
  | [], _ => rfl
  | x :: xs, h => by
    have ih := splitOnChar_no_occurrence c xs (fun y hy => h y (List.mem_cons_of_mem x hy))
    simp [splitOnChar, h x (List.mem_cons_self x xs), ih]

theorem hasChar_false_forall (p : String) (c : Char) (h : hasChar p c = false) :
    ∀ x ∈ p.data, x ≠ c := by
  intro x hx he
  subst he
  have hx2 : hasChar p x = true := List.any_eq_true.mpr ⟨x, hx, by simp⟩
  rw [h] at hx2
  exact Bool.false_ne_true hx2

theorem takeWhile_all {α : Type} (p : α → Bool) :
    ∀ l : List α, (∀ c ∈ l, p c = true) → l.takeWhile p = l
  | [], _ => rfl
  | c :: cs, h => by
    have ih := takeWhile_all p cs (fun x hx => h x (List.mem_cons_of_mem c hx))
    simp [List.takeWhile_cons, h c (List.mem_cons_self c cs), ih]

theorem jsParseInt_all_digits (p : String) (hne : p.data ≠ [])
    (hd : ∀ c ∈ p.data, isDigitChar c = true) :
    jsParseInt p = some ((digitsVal p.data : Nat) : Int) := by
  obtain ⟨d, rest, hpd⟩ : ∃ d rest, p.data = d :: rest := by
    cases hp : p.data with
    | nil => exact absurd hp hne
    | cons d rest => exact ⟨d, rest, rfl⟩
  have hdd : isDigitChar d = true := hd d (by rw [hpd]; exact List.mem_cons_self _ _)
  have hndash : d ≠ '-' := by
    intro he
    rw [he] at hdd
    exact absurd hdd (by decide)
  have hnplus : d ≠ '+' := by
    intro he
    rw [he] at hdd
    exact absurd hdd (by decide)
  have hlead : leadingNat (d :: rest) = some (digitsVal (d :: rest)) := by
    rw [leadingNat]
    rw [takeWhile_all isDigitChar (d :: rest) (fun c hc => hd c (hpd ▸ hc))]
    simp
  rw [jsParseInt, jsParseIntList, hpd]
  rw [dropWhile_all_false isWsChar (d :: rest)
    (fun c hc => digit_not_ws c (hd c (hpd ▸ hc)))]
  split
  · next heq => exact absurd heq (by simp)
  · next c rest2 heq =>
    injection heq with he1 he2
    subst he1
    subst he2
    rw [if_neg hndash, if_neg hnplus, hlead]
    simp

theorem specField_implies_cronField (lo hi : Int) (p : String)
    (hs : specCronFieldOk lo hi p = true) : cronFieldOk (lo, hi) p = true := by
  rw [cronFieldOk]
  by_cases h1 : p = "*"
  · rw [if_pos h1]
  rw [if_neg h1]
  by_cases h2 : hasChar p '/'
  · rw [if_pos h2]
  rw [if_neg h2]
  by_cases h3 : hasChar p '-'
  · rw [if_pos h3]
  rw [if_neg h3]
  by_cases h4 : hasChar p ','
  · rw [if_pos h4]
  rw [if_neg h4]
  have h2f : hasChar p '/' = false := by simpa using h2
  have h3f : hasChar p '-' = false := by simpa using h3
  have h4f : hasChar p ',' = false := by simpa using h4
  have hsd : splitOnChar ',' p.data = [p.data] :=
    splitOnChar_no_occurrence ',' p.data (hasChar_false_forall p ',' h4f)
  have hsm : splitOnChar '-' p.data = [p.data] :=
    splitOnChar_no_occurrence '-' p.data (hasChar_false_forall p '-' h3f)
  have hss : splitOnChar '/' p.data = [p.data] :=
    splitOnChar_no_occurrence '/' p.data (hasChar_false_forall p '/' h2f)
  rw [specCronFieldOk, hsd] at hs
  simp only [List.all_cons, List.all_nil, Bool.and_true] at hs
  rw [specCronItemOk, hsm, hss] at hs
  simp only [Bool.or_eq_true, decide_eq_true_eq] at hs
  rcases hs with ((hstar | hnum) | hfalse) | hfalse
  · exact absurd (by cases p; simp_all) h1
  · simp only [boundedNum, decide_eq_true_eq] at hnum
    obtain ⟨hne, hall, hlo, hhi⟩ := hnum
    have hne2 : p.data ≠ [] := by
      intro he
      rw [he] at hne
      exact hne (by decide)
    have hd : ∀ c ∈ p.data, isDigitChar c = true := by
      intro c hc
      exact List.all_eq_true.mp hall c hc
    rw [jsParseInt_all_digits p hne2 hd]
    exact decide_eq_true ⟨hlo, hhi⟩
  · exact absurd hfalse (by simp)
  · exact absurd hfalse (by simp)

/-- C4 (amended): every 5-field expression whose fields satisfy the spec
grammar with bounds is accepted by `validateCron`, but the converse
direction of the claimed equivalence fails: a field containing `-` (or
`/`, `,`) is accepted with no validation whatsoever — `a-b` in the minute
field passes for *arbitrary* strings `a`, `b`, numbers in or out of
range. -/
theorem validateCron_characterization :
    (∀ parts : List String, specCronPartsOk parts = true → validateCronParts parts = true) ∧
    (∀ x y : String, validateCronParts [x ++ "-" ++ y, "*", "*", "*", "*"] = true) := by
  constructor
  · intro parts hspec
    simp only [specCronPartsOk, decide_eq_true_eq] at hspec
    obtain ⟨h5, hall⟩ := hspec
    apply decide_eq_true
    refine ⟨h5, ?_⟩
    apply List.all_eq_true.mpr
    rintro ⟨⟨lo, hi⟩, part⟩ hbp
    exact specField_implies_cronField lo hi part
      (List.all_eq_true.mp hall ⟨(lo, hi), part⟩ hbp)
  · intro x y
    have hdashmem : '-' ∈ ((x ++ "-") ++ y).data := by
      rw [show ((x ++ "-") ++ y).data = (x.data ++ ['-']) ++ y.data from rfl]
      exact List.mem_append_left _ (List.mem_append_right _ (List.mem_singleton.mpr rfl))
    have hdash : hasChar (x ++ "-" ++ y) '-' = true :=
      List.any_eq_true.mpr ⟨'-', hdashmem, by simp⟩
    have hnstar : x ++ "-" ++ y ≠ "*" := by
      intro he
      have hm : '-' ∈ ("*" : String).data := he ▸ hdashmem
      exact absurd hm (by decide)
    have hfield : cronFieldOk (0, 59) (x ++ "-" ++ y) = true := by
      rw [cronFieldOk, if_neg hnstar]
      by_cases h2 : hasChar (x ++ "-" ++ y) '/'
      · rw [if_pos h2]
      · rw [if_neg h2, if_pos hdash]
    apply decide_eq_true
    refine ⟨rfl, ?_⟩
    have hzip : List.zip cronBounds [x ++ "-" ++ y, "*", "*", "*", "*"] =
        [((0, 59), x ++ "-" ++ y), ((0, 23), "*"), ((1, 31), "*"), ((1, 12), "*"),
         ((0, 7), "*")] := rfl
    rw [hzip]
    simp [List.all_cons, hfield, cronFieldOk]
    exact Or.inr (Or.inr (Or.inl hdash))


theorem validateCron_characterization_witness :
    specCronPartsOk ["5", "*", "1-2", "3/5", "0,7"] = true ∧
    validateCronParts ["5", "*", "1-2", "3/5", "0,7"] = true ∧
    validateCronParts ["99" ++ "-" ++ "100", "*", "*", "*", "*"] = true :=
  ⟨by decide,
    validateCron_characterization.1 ["5", "*", "1-2", "3/5", "0,7"] (by decide),
    validateCron_characterization.2 "99" "100"⟩
